import Mathlib

/-!
Verification of the tAuto candlestick-ingestion service.

This file gives a shallow embedding, in Lean 4, of the parts of the
tAuto repository (`src/tauto/candles.py`, `src/tauto/storage.py`,
`src/tauto/fetcher.py`) that the checked properties are about, and
proves or refutes each property against that embedding.

Conventions of the embedding:
* Python `int` is `Int`; Python strings are `List Char`;
  Python functions that can raise become `Option`/`Except` valued.
* SQLite tables are lists of typed rows; SQL statements become list
  operations on those rows.
* Candle price/volume fields are `float`s in the source.  The storage
  and scheduling code never performs arithmetic on them (they are
  written and read back verbatim), so the embedding is parametric in
  the payload type `α`.
-/

namespace TAuto

/-! ## Python primitives -/

/-- One character of ASCII whitespace, as stripped by Python `int(str)`. -/
def isPyWs (c : Char) : Bool :=
  c = ' ' || c = '\t' || c = '\n' || c = '\r'

/-- Strip leading and trailing whitespace, as Python `int(str)` does. -/
def trimWs (s : List Char) : List Char :=
  ((s.dropWhile isPyWs).reverse.dropWhile isPyWs).reverse

/-- Digit-run validity for Python `int(str)`: nonempty, decimal digits,
single underscores allowed only between digits. -/
def pyDigitsValid (cs : List Char) : Bool :=
  !cs.isEmpty &&
  cs.all (fun c => c.isDigit || c = '_') &&
  (match cs.head? with | some c => c.isDigit | none => false) &&
  (match cs.getLast? with | some c => c.isDigit | none => false) &&
  (cs.zip cs.tail).all (fun p => !(p.1 = '_' && p.2 = '_'))

/-- Numeric value of a digit run (underscores ignored). -/
def pyDigitsVal (cs : List Char) : Nat :=
  cs.foldl (fun acc c => if c = '_' then acc else acc * 10 + (c.toNat - 48)) 0

/-- Model of Python `int(str)`: optional surrounding whitespace, optional
sign, then a run of decimal digits (underscores allowed between digits).
`none` models the `ValueError` raised on any other input. -/
def pyInt? (s : List Char) : Option Int :=
  match trimWs s with
  | '+' :: rest => if pyDigitsValid rest then some (pyDigitsVal rest) else none
  | '-' :: rest => if pyDigitsValid rest then some (-(pyDigitsVal rest : Int)) else none
  | rest => if pyDigitsValid rest then some (pyDigitsVal rest) else none

/-- Model of Python `range(a, b, step)` for integer arguments, as a list.
`none` models the `ValueError` raised when `step == 0`. -/
def pyRange (a b step : Int) : Option (List Int) :=
  if step = 0 then none
  else if 0 < step then
    some ((List.range ((b - a + step - 1).fdiv step).toNat).map (fun k : Nat => a + (k : Int) * step))
  else
    some ((List.range ((a - b + (-step) - 1).fdiv (-step)).toNat).map (fun k : Nat => a + (k : Int) * step))

/-! ## Interval-to-milliseconds conversion

Embeds `candles._bar_to_milliseconds` and `fetcher._binance_interval_ms`.
`str.endswith(c)` for a single character is tested as equality with the
last character; `bar[:-1]` is `dropLast`.  `none` models the raised
`ValueError` (and, for the Binance variant on the empty string, the
`IndexError` from `interval[-1]`). -/

/-- Embeds `candles._bar_to_milliseconds` (also duplicated verbatim as
`fetcher._bar_to_milliseconds`). -/
def bar_to_milliseconds (bar : List Char) : Option Int :=
  if bar.getLast? = some 's' then (pyInt? bar.dropLast).map (· * 1000)
  else if bar.getLast? = some 'm' then (pyInt? bar.dropLast).map (· * (60 * 1000))
  else if bar.getLast? = some 'H' then (pyInt? bar.dropLast).map (· * (60 * 60 * 1000))
  else if bar.getLast? = some 'D' then (pyInt? bar.dropLast).map (· * (24 * 60 * 60 * 1000))
  else if bar.getLast? = some 'W' then (pyInt? bar.dropLast).map (· * (7 * 24 * 60 * 60 * 1000))
  else if bar.getLast? = some 'M' then (pyInt? bar.dropLast).map (· * (30 * 24 * 60 * 60 * 1000))
  else none

/-- Embeds `fetcher._binance_interval_ms`.  The source evaluates
`int(interval[:-1])` before testing the unit character, so a bad numeric
prefix raises even when the unit is supported. -/
def binance_interval_ms (interval : List Char) : Option Int :=
  match interval.getLast? with
  | none => none
  | some unit =>
    match pyInt? interval.dropLast with
    | none => none
    | some value =>
      if unit = 'm' then some (value * (60 * 1000))
      else if unit = 'h' then some (value * (60 * 60 * 1000))
      else if unit = 'd' then some (value * (24 * 60 * 60 * 1000))
      else if unit = 'w' then some (value * (7 * 24 * 60 * 60 * 1000))
      else if unit = 'M' then some (value * (30 * 24 * 60 * 60 * 1000))
      else none

/-- Specification-side table of supported OKX unit suffixes and their fixed
multipliers, used to state the characterization of `bar_to_milliseconds`
(it is compared against the source embedding, not derived from it). -/
def okxMultiplier (u : Char) : Option Int :=
  if u = 's' then some 1000
  else if u = 'm' then some (60 * 1000)
  else if u = 'H' then some (60 * 60 * 1000)
  else if u = 'D' then some (24 * 60 * 60 * 1000)
  else if u = 'W' then some (7 * 24 * 60 * 60 * 1000)
  else if u = 'M' then some (30 * 24 * 60 * 60 * 1000)
  else none

/-- Specification-side table of supported Binance unit suffixes and their
fixed multipliers. -/
def binanceMultiplier (u : Char) : Option Int :=
  if u = 'm' then some (60 * 1000)
  else if u = 'h' then some (60 * 60 * 1000)
  else if u = 'd' then some (24 * 60 * 60 * 1000)
  else if u = 'w' then some (7 * 24 * 60 * 60 * 1000)
  else if u = 'M' then some (30 * 24 * 60 * 60 * 1000)
  else none

/-! ## Expected-timestamp grid -/

/-- Downward alignment `t - (t % interval_ms)` with Python `%` semantics
(`Int.fmod`: the result takes the sign of the divisor). -/
def alignDown (t interval_ms : Int) : Int :=
  t - t.fmod interval_ms

/-- Embeds the body of `CandlestickService._expected_timestamps` (and the
identical grid computation in `fetcher._find_missing_in_day`), given the
interval in milliseconds.  `none` models the `ZeroDivisionError` /
`ValueError` raised when the interval is zero. -/
def expected_timestamps_ms (interval_ms start_ts end_ts : Int) : Option (List Int) :=
  if interval_ms = 0 then none
  else
    pyRange (alignDown start_ts interval_ms)
      (alignDown end_ts interval_ms + interval_ms) interval_ms

/-- Embeds `CandlestickService._expected_timestamps`: the interval comes
from `_bar_to_milliseconds(self.bar)`. -/
def expected_timestamps (bar : List Char) (start_ts end_ts : Int) : Option (List Int) :=
  (bar_to_milliseconds bar).bind fun interval_ms =>
    expected_timestamps_ms interval_ms start_ts end_ts

-- `CandlestickService.backfill_missing` is embedded further below,
-- after `fetch_history`, on which its per-point backfill loop depends.

/-! ## Storage model (`storage.py`)

The `candles` table is a list of typed rows.  The payload type `α`
stands for the `REAL` columns (Python floats), on which the store never
computes; `confirm` is persisted as an `INTEGER` (`1 if confirm else 0`)
and read back with `bool(...)`. -/

/-- Embeds the frozen dataclass `storage.CandleStick`. -/
structure CandleStick (α : Type) where
  source : String
  inst_id : String
  bar : String
  ts : Int
  open_ : α
  high : α
  low : α
  close : α
  volume : α
  volume_ccy : α
  volume_quote : α
  confirm : Bool
  deriving DecidableEq

/-- One stored row of the `candles` table (schema with the `source`
column; `confirm` is the stored integer). -/
structure CandleRow (α : Type) where
  source : String
  inst_id : String
  bar : String
  ts : Int
  open_ : α
  high : α
  low : α
  close : α
  volume : α
  volume_ccy : α
  volume_quote : α
  confirm : Int
  deriving DecidableEq

/-- The primary key `(source, inst_id, bar, ts)` of the `candles` table. -/
abbrev CandleKey := String × String × String × Int

def CandleRow.key {α : Type} (r : CandleRow α) : CandleKey :=
  (r.source, r.inst_id, r.bar, r.ts)

def CandleStick.key {α : Type} (c : CandleStick α) : CandleKey :=
  (c.source, c.inst_id, c.bar, c.ts)

/-- The tuple bound by `upsert_candles` for one candle (confirm encoded
as `1 if candle.confirm else 0`). -/
def toRow {α : Type} (c : CandleStick α) : CandleRow α :=
  ⟨c.source, c.inst_id, c.bar, c.ts, c.open_, c.high, c.low, c.close,
   c.volume, c.volume_ccy, c.volume_quote, if c.confirm then 1 else 0⟩

/-- Effect of `ON CONFLICT(source, inst_id, bar, ts) DO UPDATE SET ...`
on the conflicting row: every non-key column is overwritten from the
excluded (incoming) row. -/
def setPayload {α : Type} (x r : CandleRow α) : CandleRow α :=
  { x with open_ := r.open_, high := r.high, low := r.low, close := r.close,
           volume := r.volume, volume_ccy := r.volume_ccy,
           volume_quote := r.volume_quote, confirm := r.confirm }

/-- Effect of one `INSERT ... ON CONFLICT ... DO UPDATE` on the table:
update the conflicting row in place, or append a fresh row. -/
def upsertRow {α : Type} (rows : List (CandleRow α)) (r : CandleRow α) :
    List (CandleRow α) :=
  if rows.any (fun x => x.key == r.key) then
    rows.map (fun x => if x.key = r.key then setPayload x r else x)
  else rows ++ [r]

/-- Embeds `SqliteCandleStore.upsert_candles`: `executemany` applies the
upsert to each candle of the sequence in order (the source's early
return on an empty sequence coincides with the empty fold). -/
def upsert_candles {α : Type} (rows : List (CandleRow α))
    (candles : List (CandleStick α)) : List (CandleRow α) :=
  candles.foldl (fun acc c => upsertRow acc (toRow c)) rows

/-- The table invariant maintained by the primary key: no two rows share
a `(source, inst_id, bar, ts)` key. -/
def UniqueKeys {α : Type} (rows : List (CandleRow α)) : Prop :=
  rows.Pairwise (fun a b => a.key ≠ b.key)

/-- The stored rows carrying a given key. -/
def rowsFor {α : Type} (rows : List (CandleRow α)) (k : CandleKey) :
    List (CandleRow α) :=
  rows.filter (fun x => x.key == k)

theorem key_toRow {α : Type} (c : CandleStick α) : (toRow c).key = c.key := rfl

theorem key_setPayload {α : Type} (x r : CandleRow α) :
    (setPayload x r).key = x.key := rfl

theorem setPayload_eq_of_key_eq {α : Type} {x r : CandleRow α}
    (h : x.key = r.key) : setPayload x r = r := by
  cases x
  cases r
  simp only [CandleRow.key, Prod.mk.injEq] at h
  obtain ⟨h1, h2, h3, h4⟩ := h
  simp [setPayload, h1, h2, h3, h4]

theorem setPayload_self {α : Type} (r : CandleRow α) : setPayload r r = r := by
  cases r
  rfl

theorem upsertRow_uniqueKeys {α : Type} {rows : List (CandleRow α)}
    (hu : UniqueKeys rows) (r : CandleRow α) : UniqueKeys (upsertRow rows r) := by
  unfold upsertRow
  split
  · rw [UniqueKeys, List.pairwise_map]
    refine hu.imp ?_
    intro a b hab
    have ka : (if a.key = r.key then setPayload a r else a).key = a.key := by
      split <;> simp [key_setPayload]
    have kb : (if b.key = r.key then setPayload b r else b).key = b.key := by
      split <;> simp [key_setPayload]
    rw [ka, kb]
    exact hab
  · next hany =>
    rw [List.any_eq_true] at hany
    push_neg at hany
    rw [UniqueKeys, List.pairwise_append]
    refine ⟨hu, List.pairwise_singleton _ _, ?_⟩
    intro a ha b hb
    rw [List.mem_singleton] at hb
    subst hb
    have := hany a ha
    simpa using this

theorem map_upsert_of_no_key {α : Type} {xs : List (CandleRow α)} {r : CandleRow α}
    (h : ∀ z ∈ xs, z.key ≠ r.key) :
    xs.map (fun y => if y.key = r.key then setPayload y r else y) = xs := by
  induction xs with
  | nil => rfl
  | cons z zs ih =>
    rw [List.map_cons, if_neg (h z (List.mem_cons_self z zs)),
      ih (fun w hw => h w (List.mem_cons_of_mem z hw))]

theorem rowsFor_eq_nil_of_no_key {α : Type} {xs : List (CandleRow α)} {k : CandleKey}
    (h : ∀ z ∈ xs, z.key ≠ k) : rowsFor xs k = [] := by
  rw [rowsFor, List.filter_eq_nil_iff]
  intro z hz
  simp [h z hz]

theorem rowsFor_upsertRow_self {α : Type} {rows : List (CandleRow α)}
    (hu : UniqueKeys rows) (r : CandleRow α) :
    rowsFor (upsertRow rows r) r.key = [r] := by
  induction rows with
  | nil => simp [upsertRow, rowsFor]
  | cons x xs ih =>
    rw [UniqueKeys, List.pairwise_cons] at hu
    obtain ⟨hx, hxs⟩ := hu
    by_cases hk : x.key = r.key
    · have hxs' : ∀ z ∈ xs, z.key ≠ r.key := by
        intro z hz
        rw [← hk]
        exact fun e => hx z hz e.symm
      have hany : (x :: xs).any (fun y => y.key == r.key) = true := by
        simp [List.any_cons, hk]
      rw [upsertRow, if_pos hany, List.map_cons, if_pos hk, map_upsert_of_no_key hxs',
        rowsFor, List.filter_cons_of_pos (by simp [key_setPayload, hk]),
        setPayload_eq_of_key_eq hk]
      have : xs.filter (fun y => y.key == r.key) = [] := rowsFor_eq_nil_of_no_key hxs'
      rw [this]
    · by_cases hany : xs.any (fun y => y.key == r.key) = true
      · have hany' : (x :: xs).any (fun y => y.key == r.key) = true := by
          simp [List.any_cons, hany]
        rw [upsertRow, if_pos hany', List.map_cons, if_neg hk, rowsFor,
          List.filter_cons_of_neg (by simp [hk])]
        have hrw : upsertRow xs r =
            xs.map (fun y => if y.key = r.key then setPayload y r else y) := by
          rw [upsertRow, if_pos hany]
        rw [← rowsFor, ← hrw]
        exact ih hxs
      · have hany' : ¬((x :: xs).any (fun y => y.key == r.key) = true) := by
          simp only [List.any_cons, Bool.or_eq_true, beq_iff_eq]
          push_neg
          exact ⟨hk, by simpa using hany⟩
        rw [upsertRow, if_neg hany', List.cons_append, rowsFor,
          List.filter_cons_of_neg (by simp [hk])]
        have hrw : upsertRow xs r = xs ++ [r] := by
          rw [upsertRow, if_neg hany]
        rw [← rowsFor, ← hrw]
        exact ih hxs

theorem upsertRow_idem {α : Type} (rows : List (CandleRow α)) (r : CandleRow α) :
    upsertRow (upsertRow rows r) r = upsertRow rows r := by
  by_cases hany : rows.any (fun x => x.key == r.key) = true
  · have h1 : upsertRow rows r =
        rows.map (fun x => if x.key = r.key then setPayload x r else x) := by
      rw [upsertRow, if_pos hany]
    rw [h1]
    have hany2 : (rows.map (fun x => if x.key = r.key then setPayload x r else x)).any
        (fun x => x.key == r.key) = true := by
      rw [List.any_map]
      rw [List.any_eq_true] at hany ⊢
      obtain ⟨x, hx, hxk⟩ := hany
      refine ⟨x, hx, ?_⟩
      rw [beq_iff_eq] at hxk
      simp [Function.comp, hxk, key_setPayload]
    rw [upsertRow, if_pos hany2, List.map_map]
    refine List.map_congr_left ?_
    intro x _
    by_cases hxk : x.key = r.key
    · simp only [Function.comp, if_pos hxk, key_setPayload, if_pos hxk]
      rfl
    · simp only [Function.comp, if_neg hxk]
  · have h1 : upsertRow rows r = rows ++ [r] := by
      rw [upsertRow, if_neg hany]
    rw [h1]
    have hany2 : (rows ++ [r]).any (fun x => x.key == r.key) = true := by
      simp [List.any_append]
    rw [upsertRow, if_pos hany2, List.map_append]
    have hno : ∀ z ∈ rows, z.key ≠ r.key := by
      intro z hz e
      exact hany (by rw [List.any_eq_true]; exact ⟨z, hz, by simp [e]⟩)
    rw [map_upsert_of_no_key hno, List.map_cons, if_pos rfl, setPayload_self,
      List.map_nil]

/-- C3: Upserting a candle for a key twice — in one `upsert_candles` call
or across two calls — leaves exactly one stored row for that key, and
that row's non-key columns are those of the later upsert (last-write
wins); upserting an identical candle twice equals upserting it once. -/
theorem upsert_candles_last_write_wins {α : Type} (rows : List (CandleRow α))
    (c1 c2 c : CandleStick α) (hu : UniqueKeys rows) (_hk : c1.key = c2.key) :
    rowsFor (upsert_candles (upsert_candles rows [c1]) [c2]) c2.key = [toRow c2] ∧
    upsert_candles rows [c1, c2] = upsert_candles (upsert_candles rows [c1]) [c2] ∧
    (upsert_candles (upsert_candles rows [c1]) [c2]).countP
      (fun x => x.key == c2.key) = 1 ∧
    upsert_candles (upsert_candles rows [c]) [c] = upsert_candles rows [c] := by
  have hu1 : UniqueKeys (upsertRow rows (toRow c1)) := upsertRow_uniqueKeys hu _
  have hone : rowsFor (upsertRow (upsertRow rows (toRow c1)) (toRow c2))
      (toRow c2).key = [toRow c2] := rowsFor_upsertRow_self hu1 (toRow c2)
  refine ⟨?_, rfl, ?_, ?_⟩
  · simpa [upsert_candles, key_toRow] using hone
  · have : (upsert_candles (upsert_candles rows [c1]) [c2]).countP
        (fun x => x.key == c2.key) =
        (rowsFor (upsert_candles (upsert_candles rows [c1]) [c2]) c2.key).length := by
      rw [rowsFor, List.countP_eq_length_filter]
    rw [this]
    rw [show rowsFor (upsert_candles (upsert_candles rows [c1]) [c2]) c2.key
        = [toRow c2] from by simpa [upsert_candles, key_toRow] using hone]
    rfl
  · simpa [upsert_candles] using upsertRow_idem rows (toRow c)

/-- Witness for C3 at a concrete store and concrete candles. -/
theorem upsert_candles_last_write_wins_witness :
    rowsFor (upsert_candles
        (upsert_candles ([] : List (CandleRow Int))
          [⟨"okx", "BTC-USDT", "1m", 0, 1, 2, 3, 4, 5, 6, 7, false⟩])
        [⟨"okx", "BTC-USDT", "1m", 0, 10, 20, 30, 40, 50, 60, 70, true⟩])
      (CandleStick.key (⟨"okx", "BTC-USDT", "1m", 0, 10, 20, 30, 40, 50, 60, 70, true⟩ : CandleStick Int)) =
      [toRow (⟨"okx", "BTC-USDT", "1m", 0, 10, 20, 30, 40, 50, 60, 70, true⟩ : CandleStick Int)] ∧
    upsert_candles ([] : List (CandleRow Int))
        [⟨"okx", "BTC-USDT", "1m", 0, 1, 2, 3, 4, 5, 6, 7, false⟩,
         ⟨"okx", "BTC-USDT", "1m", 0, 10, 20, 30, 40, 50, 60, 70, true⟩] =
      upsert_candles
        (upsert_candles ([] : List (CandleRow Int))
          [⟨"okx", "BTC-USDT", "1m", 0, 1, 2, 3, 4, 5, 6, 7, false⟩])
        [⟨"okx", "BTC-USDT", "1m", 0, 10, 20, 30, 40, 50, 60, 70, true⟩] ∧
    (upsert_candles
        (upsert_candles ([] : List (CandleRow Int))
          [⟨"okx", "BTC-USDT", "1m", 0, 1, 2, 3, 4, 5, 6, 7, false⟩])
        [⟨"okx", "BTC-USDT", "1m", 0, 10, 20, 30, 40, 50, 60, 70, true⟩]).countP
      (fun x => x.key == CandleStick.key (⟨"okx", "BTC-USDT", "1m", 0, 10, 20, 30, 40, 50, 60, 70, true⟩ : CandleStick Int)) = 1 ∧
    upsert_candles (upsert_candles ([] : List (CandleRow Int))
        [⟨"okx", "BTC-USDT", "1m", 0, 1, 2, 3, 4, 5, 6, 7, false⟩])
      [⟨"okx", "BTC-USDT", "1m", 0, 1, 2, 3, 4, 5, 6, 7, false⟩] =
      upsert_candles ([] : List (CandleRow Int))
        [⟨"okx", "BTC-USDT", "1m", 0, 1, 2, 3, 4, 5, 6, 7, false⟩] :=
  upsert_candles_last_write_wins ([] : List (CandleRow Int))
    ⟨"okx", "BTC-USDT", "1m", 0, 1, 2, 3, 4, 5, 6, 7, false⟩
    ⟨"okx", "BTC-USDT", "1m", 0, 10, 20, 30, 40, 50, 60, 70, true⟩
    ⟨"okx", "BTC-USDT", "1m", 0, 1, 2, 3, 4, 5, 6, 7, false⟩
    List.Pairwise.nil rfl

/-! ## Range reads (`SqliteCandleStore.fetch_candles`) -/

/-- The `ORDER BY ts DESC` ordering used by `fetch_candles`. -/
def tsDesc {α : Type} (a b : CandleRow α) : Prop := b.ts ≤ a.ts

instance {α : Type} : DecidableRel (tsDesc (α := α)) := fun a b =>
  inferInstanceAs (Decidable (b.ts ≤ a.ts))

instance {α : Type} : IsTotal (CandleRow α) tsDesc := ⟨fun a b => le_total b.ts a.ts⟩

instance {α : Type} : IsTrans (CandleRow α) tsDesc :=
  ⟨fun _ _ _ h1 h2 => le_trans h2 h1⟩

/-- The `WHERE` clause built by `fetch_candles`: equality on source,
instrument and bar, plus `ts >= ?` / `ts <= ?` when the optional bounds
are given. -/
def matchesQuery {α : Type} (source inst_id bar : String)
    (start_ts end_ts : Option Int) (r : CandleRow α) : Bool :=
  r.source == source && r.inst_id == inst_id && r.bar == bar &&
  (match start_ts with | some s => decide (s ≤ r.ts) | none => true) &&
  (match end_ts with | some e => decide (r.ts ≤ e) | none => true)

/-- Reconstruction of a `CandleStick` from a stored row
(`confirm=bool(row[11])`). -/
def rowToCandle {α : Type} (r : CandleRow α) : CandleStick α :=
  ⟨r.source, r.inst_id, r.bar, r.ts, r.open_, r.high, r.low, r.close,
   r.volume, r.volume_ccy, r.volume_quote, r.confirm != 0⟩

/-- Embeds `SqliteCandleStore.fetch_candles`: filter by the `WHERE`
clause, order by `ts DESC`, apply `LIMIT ?` when a limit is given (a
negative SQLite `LIMIT` means no bound), and reverse into ascending
order.  Rows sharing a timestamp never occur within one
`(source, inst_id, bar)` under the primary key, so the descending sort
is deterministic on reachable stores. -/
def fetch_candles {α : Type} (rows : List (CandleRow α)) (source inst_id bar : String)
    (limit : Option Int) (start_ts end_ts : Option Int) : List (CandleStick α) :=
  let matched := rows.filter (matchesQuery source inst_id bar start_ts end_ts)
  let descending := List.insertionSort tsDesc matched
  let limited := match limit with
    | some n => if n < 0 then descending else descending.take n.toNat
    | none => descending
  limited.reverse.map rowToCandle

/-- C5: `fetch_candles` returns candles in ascending (strictly, under the
primary-key invariant) timestamp order, every returned candle lies in the
inclusive requested range, and with a limit `n` it returns the most
recent `n` rows of the range: the tail of the ascending no-limit result
(select descending with `LIMIT`, then reverse). -/
theorem fetch_candles_ascending_most_recent {α : Type} (rows : List (CandleRow α))
    (source inst_id bar : String) (n lo hi : Int)
    (hu : UniqueKeys rows) (hn : 0 ≤ n) :
    (fetch_candles rows source inst_id bar none (some lo) (some hi)).Pairwise
      (fun a b => a.ts < b.ts) ∧
    (∀ c ∈ fetch_candles rows source inst_id bar none (some lo) (some hi),
      lo ≤ c.ts ∧ c.ts ≤ hi) ∧
    fetch_candles rows source inst_id bar (some n) (some lo) (some hi) =
      (fetch_candles rows source inst_id bar none (some lo) (some hi)).drop
        ((fetch_candles rows source inst_id bar none (some lo) (some hi)).length
          - n.toNat) := by
  have hunfold : fetch_candles rows source inst_id bar none (some lo) (some hi) =
      (List.insertionSort tsDesc
        (rows.filter (matchesQuery source inst_id bar (some lo) (some hi)))).reverse.map
        rowToCandle := rfl
  have hlim : fetch_candles rows source inst_id bar (some n) (some lo) (some hi) =
      ((List.insertionSort tsDesc
        (rows.filter (matchesQuery source inst_id bar (some lo) (some hi)))).take
          n.toNat).reverse.map rowToCandle := by
    simp only [fetch_candles]
    rw [if_neg (not_lt.mpr hn)]
  have hfields : ∀ r ∈ rows.filter (matchesQuery source inst_id bar (some lo) (some hi)),
      r.source = source ∧ r.inst_id = inst_id ∧ r.bar = bar ∧ lo ≤ r.ts ∧ r.ts ≤ hi := by
    intro r hr
    rw [List.mem_filter] at hr
    obtain ⟨-, hpr⟩ := hr
    simpa [matchesQuery, and_assoc] using hpr
  have hperm : List.Perm
      (List.insertionSort tsDesc
        (rows.filter (matchesQuery source inst_id bar (some lo) (some hi))))
      (rows.filter (matchesQuery source inst_id bar (some lo) (some hi))) :=
    List.perm_insertionSort _ _
  have hsorted : (List.insertionSort tsDesc
      (rows.filter (matchesQuery source inst_id bar (some lo) (some hi)))).Pairwise tsDesc :=
    List.sorted_insertionSort _ _
  have hne : (rows.filter (matchesQuery source inst_id bar (some lo) (some hi))).Pairwise
      (fun a b => a.ts ≠ b.ts) := by
    have h1 : (rows.filter (matchesQuery source inst_id bar (some lo) (some hi))).Pairwise
        (fun a b => a.key ≠ b.key) := hu.sublist (List.filter_sublist _)
    refine h1.imp_of_mem ?_
    intro a b ha hb hab hts
    apply hab
    obtain ⟨sa, ia, ba, -⟩ := hfields a ha
    obtain ⟨sb, ib, bb, -⟩ := hfields b hb
    simp [CandleRow.key, sa, ia, ba, sb, ib, bb, hts]
  have hneD : (List.insertionSort tsDesc
      (rows.filter (matchesQuery source inst_id bar (some lo) (some hi)))).Pairwise
      (fun a b => a.ts ≠ b.ts) :=
    (hperm.pairwise_iff (fun h => Ne.symm h)).2 hne
  have hstrictD : (List.insertionSort tsDesc
      (rows.filter (matchesQuery source inst_id bar (some lo) (some hi)))).Pairwise
      (fun a b => b.ts < a.ts) := by
    refine (hsorted.and hneD).imp ?_
    rintro a b ⟨h1, h2⟩
    exact lt_of_le_of_ne h1 (Ne.symm h2)
  refine ⟨?_, ?_, ?_⟩
  · rw [hunfold, List.pairwise_map, List.pairwise_reverse]
    exact hstrictD
  · intro c hc
    rw [hunfold, List.mem_map] at hc
    obtain ⟨r, hr, hrc⟩ := hc
    rw [List.mem_reverse] at hr
    have hrm := hperm.mem_iff.1 hr
    obtain ⟨-, -, -, h4, h5⟩ := hfields r hrm
    rw [← hrc]
    exact ⟨h4, h5⟩
  · rw [hlim, hunfold, List.reverse_take]
    rw [List.length_map, List.length_reverse]
    rw [List.map_drop]

/-- Witness for C5 at a concrete store of three rows with limit 1. -/
theorem fetch_candles_ascending_most_recent_witness :
    (fetch_candles
        ([⟨"okx", "BTC-USDT", "1m", 120000, 1, 1, 1, 1, 1, 1, 1, 1⟩,
          ⟨"okx", "BTC-USDT", "1m", 0, 2, 2, 2, 2, 2, 2, 2, 1⟩,
          ⟨"okx", "ETH-USDT", "1m", 0, 3, 3, 3, 3, 3, 3, 3, 1⟩] : List (CandleRow Int))
        "okx" "BTC-USDT" "1m" none (some 0) (some 200000)).Pairwise
      (fun a b => a.ts < b.ts) ∧
    (∀ c ∈ fetch_candles
        ([⟨"okx", "BTC-USDT", "1m", 120000, 1, 1, 1, 1, 1, 1, 1, 1⟩,
          ⟨"okx", "BTC-USDT", "1m", 0, 2, 2, 2, 2, 2, 2, 2, 1⟩,
          ⟨"okx", "ETH-USDT", "1m", 0, 3, 3, 3, 3, 3, 3, 3, 1⟩] : List (CandleRow Int))
        "okx" "BTC-USDT" "1m" none (some 0) (some 200000),
      0 ≤ c.ts ∧ c.ts ≤ 200000) ∧
    fetch_candles
        ([⟨"okx", "BTC-USDT", "1m", 120000, 1, 1, 1, 1, 1, 1, 1, 1⟩,
          ⟨"okx", "BTC-USDT", "1m", 0, 2, 2, 2, 2, 2, 2, 2, 1⟩,
          ⟨"okx", "ETH-USDT", "1m", 0, 3, 3, 3, 3, 3, 3, 3, 1⟩] : List (CandleRow Int))
        "okx" "BTC-USDT" "1m" (some 1) (some 0) (some 200000) =
      (fetch_candles
        ([⟨"okx", "BTC-USDT", "1m", 120000, 1, 1, 1, 1, 1, 1, 1, 1⟩,
          ⟨"okx", "BTC-USDT", "1m", 0, 2, 2, 2, 2, 2, 2, 2, 1⟩,
          ⟨"okx", "ETH-USDT", "1m", 0, 3, 3, 3, 3, 3, 3, 3, 1⟩] : List (CandleRow Int))
        "okx" "BTC-USDT" "1m" none (some 0) (some 200000)).drop
        ((fetch_candles
          ([⟨"okx", "BTC-USDT", "1m", 120000, 1, 1, 1, 1, 1, 1, 1, 1⟩,
            ⟨"okx", "BTC-USDT", "1m", 0, 2, 2, 2, 2, 2, 2, 2, 1⟩,
            ⟨"okx", "ETH-USDT", "1m", 0, 3, 3, 3, 3, 3, 3, 3, 1⟩] : List (CandleRow Int))
          "okx" "BTC-USDT" "1m" none (some 0) (some 200000)).length - (1 : Int).toNat) :=
  fetch_candles_ascending_most_recent
    ([⟨"okx", "BTC-USDT", "1m", 120000, 1, 1, 1, 1, 1, 1, 1, 1⟩,
      ⟨"okx", "BTC-USDT", "1m", 0, 2, 2, 2, 2, 2, 2, 2, 1⟩,
      ⟨"okx", "ETH-USDT", "1m", 0, 3, 3, 3, 3, 3, 3, 3, 1⟩] : List (CandleRow Int))
    "okx" "BTC-USDT" "1m" 1 0 200000
    (by unfold UniqueKeys; decide) (by decide)

/-! ## Retention pruning (`SqliteCandleStore.delete_older_than`) -/

/-- One stored row of the `orderbook_snapshots` table (bids/asks are the
serialized JSON strings). -/
structure OrderbookRow where
  inst_id : String
  ts_sec : Int
  ts_ms : Int
  depth : Option Int
  bids : String
  asks : String
  deriving DecidableEq

/-- The two tables managed by `SqliteCandleStore`. -/
structure StoreState (α : Type) where
  candles : List (CandleRow α)
  orderbook_snapshots : List OrderbookRow

/-- Embeds `SqliteCandleStore.delete_older_than`:
`DELETE FROM candles WHERE ts < ?`, returning the cursor rowcount. -/
def delete_older_than {α : Type} (db : StoreState α) (cutoff_ts : Int) :
    StoreState α × Nat :=
  ({ db with candles := db.candles.filter (fun r => !decide (r.ts < cutoff_ts)) },
   db.candles.countP (fun r => decide (r.ts < cutoff_ts)))

/-- C10: retention pruning deletes exactly the candle rows with
`ts < cutoff_ts` and returns their count; candle rows at or after the
cutoff, and every order-book snapshot row, are left unchanged. -/
theorem delete_older_than_frame {α : Type} (db : StoreState α) (cutoff_ts : Int) :
    (delete_older_than db cutoff_ts).1.orderbook_snapshots = db.orderbook_snapshots ∧
    (delete_older_than db cutoff_ts).1.candles =
      db.candles.filter (fun r => decide (cutoff_ts ≤ r.ts)) ∧
    (∀ r : CandleRow α, r ∈ (delete_older_than db cutoff_ts).1.candles ↔
      r ∈ db.candles ∧ cutoff_ts ≤ r.ts) ∧
    (delete_older_than db cutoff_ts).2 =
      (db.candles.filter (fun r => decide (r.ts < cutoff_ts))).length ∧
    (delete_older_than db cutoff_ts).2 +
      (delete_older_than db cutoff_ts).1.candles.length = db.candles.length := by
  refine ⟨rfl, ?_, ?_, ?_, ?_⟩
  · show db.candles.filter _ = db.candles.filter _
    refine List.filter_congr ?_
    intro r _
    rw [← decide_not, decide_eq_decide]
    exact not_lt
  · intro r
    simp [delete_older_than, List.mem_filter, not_lt]
  · simp [delete_older_than, List.countP_eq_length_filter]
  · have key : ∀ l : List (CandleRow α),
        l.countP (fun r => decide (r.ts < cutoff_ts)) +
          (l.filter (fun r => !decide (r.ts < cutoff_ts))).length = l.length := by
      intro l
      induction l with
      | nil => rfl
      | cons x xs ih =>
        by_cases hx : x.ts < cutoff_ts <;>
          simp [List.countP_cons, List.filter_cons, hx, ih] <;> omega
    exact key db.candles

/-! ## Schema migration (`SqliteCandleStore._migrate_schema`) -/

/-- A row of the pre-migration `candles` table (no `source` column). -/
structure CandleRowNoSource (α : Type) where
  inst_id : String
  bar : String
  ts : Int
  open_ : α
  high : α
  low : α
  close : α
  volume : α
  volume_ccy : α
  volume_quote : α
  confirm : Int
  deriving DecidableEq

/-- A `candles`-shaped table in either schema generation. -/
inductive CandlesTable (α : Type) where
  | oldSchema (rows : List (CandleRowNoSource α))
  | newSchema (rows : List (CandleRow α))

/-- The tables `_migrate_schema` touches: `candles` and the transient
`candles_v2` (each `none` when absent from `sqlite_master`). -/
structure SchemaState (α : Type) where
  candles : Option (CandlesTable α)
  candles_v2 : Option (CandlesTable α)

/-- The row produced by `INSERT INTO candles_v2 ... SELECT 'okx', ...`:
the default source with every other column copied verbatim. -/
def addOkxSource {α : Type} (r : CandleRowNoSource α) : CandleRow α :=
  ⟨"okx", r.inst_id, r.bar, r.ts, r.open_, r.high, r.low, r.close,
   r.volume, r.volume_ccy, r.volume_quote, r.confirm⟩

/-- Embeds `SqliteCandleStore._migrate_schema`: return if the `candles`
table is absent or already has a `source` column; otherwise create
`candles_v2` if needed, copy every row with source `'okx'` (an SQL error
if `candles_v2` exists with the old schema, or if the copied keys
violate the new primary key), drop `candles`, and rename `candles_v2`
to `candles`. -/
def migrate_schema {α : Type} (db : SchemaState α) : Except String (SchemaState α) :=
  match db.candles with
  | none => .ok db
  | some (.newSchema _) => .ok db
  | some (.oldSchema rows) =>
    let v2 := match db.candles_v2 with
      | none => CandlesTable.newSchema ([] : List (CandleRow α))
      | some t => t
    match v2 with
    | .oldSchema _ => .error "table candles_v2 has no source column"
    | .newSchema existing =>
      let inserted := existing ++ rows.map addOkxSource
      if (inserted.map CandleRow.key).Nodup then
        .ok { candles := some (.newSchema inserted), candles_v2 := none }
      else .error "UNIQUE constraint failed"

/-- C7: migrating an old-schema database re-creates every existing row
with default source `'okx'` and otherwise-unchanged columns, and the
migration is a no-op (hence safe to repeat) when the `candles` table is
absent or already has the `source` column — in particular a second run
right after a successful migration changes nothing. -/
theorem migrate_schema_preserves_and_idempotent {α : Type}
    (rows : List (CandleRowNoSource α)) (db db1 db2 : SchemaState α)
    (h1 : db.candles = some (.oldSchema rows)) (h2 : db.candles_v2 = none)
    (hnd : (rows.map (fun r => (r.inst_id, r.bar, r.ts))).Nodup)
    (h3 : db1.candles = none)
    (h4 : ∃ rs, db2.candles = some (.newSchema rs)) :
    migrate_schema db =
      .ok ⟨some (.newSchema (rows.map addOkxSource)), none⟩ ∧
    (∀ r ∈ rows, addOkxSource r ∈ rows.map addOkxSource ∧
      (addOkxSource r).source = "okx" ∧ (addOkxSource r).ts = r.ts ∧
      (addOkxSource r).open_ = r.open_ ∧ (addOkxSource r).confirm = r.confirm) ∧
    migrate_schema (⟨some (.newSchema (rows.map addOkxSource)), none⟩ : SchemaState α) =
      .ok ⟨some (.newSchema (rows.map addOkxSource)), none⟩ ∧
    migrate_schema db1 = .ok db1 ∧
    migrate_schema db2 = .ok db2 := by
  obtain ⟨rs2, hrs2⟩ := h4
  have hkeys : ((rows.map addOkxSource).map CandleRow.key).Nodup := by
    rw [List.map_map]
    have : (CandleRow.key ∘ addOkxSource (α := α)) =
        (fun t : String × String × Int => ("okx", t.1, t.2.1, t.2.2)) ∘
          (fun r : CandleRowNoSource α => (r.inst_id, r.bar, r.ts)) := by
      funext r
      rfl
    rw [this, ← List.map_map]
    refine hnd.map ?_
    intro a b hab
    simpa [Prod.ext_iff] using hab
  refine ⟨?_, ?_, ?_, ?_, ?_⟩
  · rw [migrate_schema, h1]
    simp only [h2]
    rw [if_pos (by simpa using hkeys)]
    simp
  · intro r hr
    exact ⟨List.mem_map_of_mem _ hr, rfl, rfl, rfl, rfl⟩
  · rfl
  · rw [migrate_schema, h3]
  · rw [migrate_schema, hrs2]

/-- Witness for C7 at a concrete one-row old-schema database. -/
theorem migrate_schema_preserves_and_idempotent_witness :
    migrate_schema
        (⟨some (.oldSchema [⟨"BTC-USDT", "1m", 0, 5, 6, 7, 8, 9, 10, 11, 1⟩]),
          none⟩ : SchemaState Int) =
      .ok ⟨some (.newSchema
        (([⟨"BTC-USDT", "1m", 0, 5, 6, 7, 8, 9, 10, 11, 1⟩] :
          List (CandleRowNoSource Int)).map addOkxSource)), none⟩ ∧
    (∀ r ∈ ([⟨"BTC-USDT", "1m", 0, 5, 6, 7, 8, 9, 10, 11, 1⟩] :
        List (CandleRowNoSource Int)),
      addOkxSource r ∈ ([⟨"BTC-USDT", "1m", 0, 5, 6, 7, 8, 9, 10, 11, 1⟩] :
        List (CandleRowNoSource Int)).map addOkxSource ∧
      (addOkxSource r).source = "okx" ∧ (addOkxSource r).ts = r.ts ∧
      (addOkxSource r).open_ = r.open_ ∧ (addOkxSource r).confirm = r.confirm) ∧
    migrate_schema (⟨some (.newSchema
        (([⟨"BTC-USDT", "1m", 0, 5, 6, 7, 8, 9, 10, 11, 1⟩] :
          List (CandleRowNoSource Int)).map addOkxSource)), none⟩ : SchemaState Int) =
      .ok ⟨some (.newSchema
        (([⟨"BTC-USDT", "1m", 0, 5, 6, 7, 8, 9, 10, 11, 1⟩] :
          List (CandleRowNoSource Int)).map addOkxSource)), none⟩ ∧
    migrate_schema (⟨none, none⟩ : SchemaState Int) = .ok ⟨none, none⟩ ∧
    migrate_schema (⟨some (.newSchema ([] : List (CandleRow Int))), none⟩ :
        SchemaState Int) =
      .ok ⟨some (.newSchema ([] : List (CandleRow Int))), none⟩ :=
  migrate_schema_preserves_and_idempotent
    [⟨"BTC-USDT", "1m", 0, 5, 6, 7, 8, 9, 10, 11, 1⟩]
    ⟨some (.oldSchema [⟨"BTC-USDT", "1m", 0, 5, 6, 7, 8, 9, 10, 11, 1⟩]), none⟩
    ⟨none, none⟩
    ⟨some (.newSchema ([] : List (CandleRow Int))), none⟩
    rfl rfl (by decide) rfl ⟨[], rfl⟩

/-- C9: the gap-detection grid aligns both range boundaries downward
(`aligned = t - (t mod interval_ms)`), so for a start timestamp that is
not a multiple of the interval the first expected timestamp is strictly
less than the requested start (gap detection can report timestamps
earlier than the range start); the grid is the arithmetic progression
from the aligned start to the aligned end, inclusive, with the interval
as step. -/
theorem expected_timestamps_grid_alignment (interval_ms start_ts end_ts : Int)
    (h : 0 < interval_ms) :
    alignDown start_ts interval_ms ≤ start_ts ∧
    (start_ts.fmod interval_ms ≠ 0 → alignDown start_ts interval_ms < start_ts) ∧
    expected_timestamps_ms interval_ms start_ts end_ts = some
      ((List.range (if alignDown start_ts interval_ms ≤ alignDown end_ts interval_ms
          then ((alignDown end_ts interval_ms - alignDown start_ts interval_ms).fdiv
            interval_ms).toNat + 1 else 0)).map
        (fun k : Nat => alignDown start_ts interval_ms + (k : Int) * interval_ms)) ∧
    (alignDown start_ts interval_ms ≤ alignDown end_ts interval_ms →
      ∀ l, expected_timestamps_ms interval_ms start_ts end_ts = some l →
        l.head? = some (alignDown start_ts interval_ms) ∧
        l.getLast? = some (alignDown end_ts interval_ms)) := by
  have hI0 : ¬(interval_ms = 0) := by omega
  have hm1 : 0 ≤ start_ts.fmod interval_ms := Int.fmod_nonneg' _ h
  have hm2 : start_ts.fmod interval_ms < interval_ms := Int.fmod_lt_of_pos _ h
  have hA : alignDown start_ts interval_ms =
      interval_ms * (start_ts.fdiv interval_ms) := by
    simp only [alignDown, Int.fmod_def]
    ring
  have hE : alignDown end_ts interval_ms =
      interval_ms * (end_ts.fdiv interval_ms) := by
    simp only [alignDown, Int.fmod_def]
    ring
  have hfd : ∀ n : Int, (interval_ms * n - 1).fdiv interval_ms = n - 1 := by
    intro n
    rw [Int.fdiv_eq_ediv _ (le_of_lt h)]
    exact ((Int.ediv_emod_unique (a := interval_ms * n - 1) (r := interval_ms - 1)
      (q := n - 1) h).2 ⟨by ring, by omega, by omega⟩).1
  have hDfd : ∀ n : Int, (interval_ms * n).fdiv interval_ms = n := fun n =>
    Int.mul_fdiv_cancel_left n hI0
  have hex : expected_timestamps_ms interval_ms start_ts end_ts =
      some ((List.range
          ((end_ts.fdiv interval_ms - start_ts.fdiv interval_ms + 1).toNat)).map
        (fun k : Nat => alignDown start_ts interval_ms + (k : Int) * interval_ms)) := by
    rw [expected_timestamps_ms, if_neg hI0, pyRange, if_neg hI0, if_pos h]
    have harg : alignDown end_ts interval_ms + interval_ms -
        alignDown start_ts interval_ms + interval_ms - 1 =
        interval_ms * (end_ts.fdiv interval_ms - start_ts.fdiv interval_ms + 2) - 1 := by
      rw [hA, hE]
      ring
    rw [harg, hfd]
    have : end_ts.fdiv interval_ms - start_ts.fdiv interval_ms + 2 - 1 =
        end_ts.fdiv interval_ms - start_ts.fdiv interval_ms + 1 := by ring
    rw [this]
  have hle_iff : (alignDown start_ts interval_ms ≤ alignDown end_ts interval_ms) ↔
      start_ts.fdiv interval_ms ≤ end_ts.fdiv interval_ms := by
    rw [hA, hE]
    exact mul_le_mul_left h
  refine ⟨?_, ?_, ?_, ?_⟩
  · simp only [alignDown]
    omega
  · intro hne
    simp only [alignDown]
    omega
  · rw [hex]
    have hcount : (end_ts.fdiv interval_ms - start_ts.fdiv interval_ms + 1).toNat =
        if alignDown start_ts interval_ms ≤ alignDown end_ts interval_ms
        then ((alignDown end_ts interval_ms - alignDown start_ts interval_ms).fdiv
          interval_ms).toNat + 1 else 0 := by
      have h1 : alignDown end_ts interval_ms - alignDown start_ts interval_ms =
          interval_ms * (end_ts.fdiv interval_ms - start_ts.fdiv interval_ms) := by
        rw [hA, hE]
        ring
      rw [h1, hDfd]
      by_cases hle : alignDown start_ts interval_ms ≤ alignDown end_ts interval_ms
      · rw [if_pos hle]
        have := hle_iff.1 hle
        omega
      · rw [if_neg hle]
        have : ¬ start_ts.fdiv interval_ms ≤ end_ts.fdiv interval_ms :=
          fun hpq => hle (hle_iff.2 hpq)
        omega
    rw [hcount]
  · intro hle l hl
    rw [hex] at hl
    obtain rfl := Option.some.inj hl
    have hpq : start_ts.fdiv interval_ms ≤ end_ts.fdiv interval_ms := hle_iff.1 hle
    have hc : (end_ts.fdiv interval_ms - start_ts.fdiv interval_ms + 1).toNat =
        (end_ts.fdiv interval_ms - start_ts.fdiv interval_ms).toNat + 1 := by omega
    rw [hc]
    constructor
    · rw [List.range_succ_eq_map]
      simp
    · rw [List.range_succ, List.map_append, List.map_cons, List.map_nil,
        List.getLast?_concat]
      have hcast : (((end_ts.fdiv interval_ms - start_ts.fdiv interval_ms).toNat : Int)) =
          end_ts.fdiv interval_ms - start_ts.fdiv interval_ms := by omega
      rw [hcast, hA, hE]
      exact congrArg some (by ring)

/-- Witness for C9 with interval 60000 and a misaligned start 30000. -/
theorem expected_timestamps_grid_alignment_witness :
    alignDown 30000 60000 ≤ 30000 ∧
    ((30000 : Int).fmod 60000 ≠ 0 → alignDown 30000 60000 < 30000) ∧
    expected_timestamps_ms 60000 30000 180000 = some
      ((List.range (if alignDown 30000 60000 ≤ alignDown 180000 60000
          then ((alignDown 180000 60000 - alignDown 30000 60000).fdiv 60000).toNat + 1
          else 0)).map
        (fun k : Nat => alignDown 30000 60000 + (k : Int) * 60000)) ∧
    (alignDown 30000 60000 ≤ alignDown 180000 60000 →
      ∀ l, expected_timestamps_ms 60000 30000 180000 = some l →
        l.head? = some (alignDown 30000 60000) ∧
        l.getLast? = some (alignDown 180000 60000)) :=
  expected_timestamps_grid_alignment 60000 30000 180000 (by decide)

/-- C6 counterexample: `"m"` (and likewise `"h"` for the Binance family)
has a unit suffix in the supported set, yet the conversion raises — the
numeric prefix `int("")` is a `ValueError` — so "raises if and only if
the unit suffix is not supported" is false as stated. -/
theorem interval_ms_error_despite_supported_suffix :
    bar_to_milliseconds ['m'] = none ∧ okxMultiplier 'm' = some 60000 ∧
    binance_interval_ms ['h'] = none ∧ binanceMultiplier 'h' = some 3600000 := by
  refine ⟨by decide, by decide, by decide, by decide⟩

/-- C6 (amended): the conversions raise exactly when the unit suffix is
unsupported or the numeric prefix is not a valid integer — never a
silent default; for a supported suffix with a valid integer prefix they
return the prefix times the suffix's fixed multiplier, and the month
suffix 'M' maps to exactly 30 days of milliseconds in both families. -/
theorem interval_ms_characterization :
    (∀ bar : List Char,
      (bar_to_milliseconds bar = none ↔
        (bar.getLast?.bind okxMultiplier = none ∨ pyInt? bar.dropLast = none)) ∧
      (∀ u mult v, bar.getLast? = some u → okxMultiplier u = some mult →
        pyInt? bar.dropLast = some v → bar_to_milliseconds bar = some (v * mult)) ∧
      (binance_interval_ms bar = none ↔
        (bar.getLast?.bind binanceMultiplier = none ∨ pyInt? bar.dropLast = none)) ∧
      (∀ u mult v, bar.getLast? = some u → binanceMultiplier u = some mult →
        pyInt? bar.dropLast = some v → binance_interval_ms bar = some (v * mult))) ∧
    okxMultiplier 'M' = some (30 * 24 * 60 * 60 * 1000) ∧
    binanceMultiplier 'M' = some (30 * 24 * 60 * 60 * 1000) := by
  refine ⟨?_, rfl, rfl⟩
  intro bar
  cases hlast : bar.getLast? with
  | none =>
    have hbm : bar_to_milliseconds bar = none := by
      rw [bar_to_milliseconds]
      split_ifs with h1 h2 h3 h4 h5 h6 <;> simp_all
    have hbin : binance_interval_ms bar = none := by
      rw [binance_interval_ms, hlast]
    refine ⟨by simp [hbm, hlast], ?_, by simp [hbin, hlast], ?_⟩ <;>
      · intro u mult v hu
        cases hu
  | some u =>
    cases hp : pyInt? bar.dropLast with
    | none =>
      have hbm : bar_to_milliseconds bar = none := by
        rw [bar_to_milliseconds]
        split_ifs <;> simp [hp]
      have hbin : binance_interval_ms bar = none := by
        rw [binance_interval_ms, hlast, hp]
      refine ⟨by simp [hbm, hp], ?_, by simp [hbin, hp], ?_⟩ <;>
        · intro u' mult v _ _ hv
          cases hv
    | some v =>
      refine ⟨?_, ?_, ?_, ?_⟩
      · rw [bar_to_milliseconds]
        simp only [hlast, Option.some.injEq, Option.some_bind, hp]
        rw [okxMultiplier]
        split_ifs <;> simp
      · intro u' mult v' hu hm hv
        obtain rfl := Option.some.inj hu
        obtain rfl := Option.some.inj hv
        rw [bar_to_milliseconds]
        simp only [hlast, Option.some.injEq, hp]
        rw [okxMultiplier] at hm
        split_ifs at hm ⊢ <;> simp_all
      · rw [binance_interval_ms]
        simp only [hlast, Option.some_bind, hp]
        rw [binanceMultiplier]
        split_ifs <;> simp
      · intro u' mult v' hu hm hv
        obtain rfl := Option.some.inj hu
        obtain rfl := Option.some.inj hv
        rw [binance_interval_ms]
        simp only [hlast, hp]
        rw [binanceMultiplier] at hm
        split_ifs at hm ⊢ <;> simp_all

/-- Witness for C6 (amended) at the bar string "3M" in both families. -/
theorem interval_ms_characterization_witness :
    bar_to_milliseconds ['3', 'M'] = some (3 * (30 * 24 * 60 * 60 * 1000)) ∧
    binance_interval_ms ['3', 'M'] = some (3 * (30 * 24 * 60 * 60 * 1000)) :=
  ⟨(interval_ms_characterization.1 ['3', 'M']).2.1 'M' (30 * 24 * 60 * 60 * 1000) 3
    (by decide) (by decide) (by decide),
   (interval_ms_characterization.1 ['3', 'M']).2.2.2 'M' (30 * 24 * 60 * 60 * 1000) 3
    (by decide) (by decide) (by decide)⟩

/-! ## Calendar-month retention arithmetic (`storage.subtract_months`)

The date model carries the `(year, month, day)` fields of a Python
`datetime`; `subtract_months` touches nothing else (the time-of-day
fields pass through `replace` unchanged).  Python `datetime` years run
1..9999. -/

structure PyDate where
  year : Int
  month : Int
  day : Int
  deriving DecidableEq

/-- The Gregorian leap-year rule, as implemented by Python `datetime`
(a modelled library dependency). -/
def isLeap (y : Int) : Bool :=
  y % 4 == 0 && (y % 100 != 0 || y % 400 == 0)

/-- Day count of a month in the proleptic Gregorian calendar, as
implemented inside Python `datetime` (modelled library dependency). -/
def pyDaysInMonth (y m : Int) : Int :=
  if m = 2 then (if isLeap y then 29 else 28)
  else if m = 4 ∨ m = 6 ∨ m = 9 ∨ m = 11 then 30
  else 31

/-- One-day successor, part of the model of `datetime + timedelta(days=n)`. -/
def succDay (d : PyDate) : PyDate :=
  if d.day < pyDaysInMonth d.year d.month then ⟨d.year, d.month, d.day + 1⟩
  else if d.month < 12 then ⟨d.year, d.month + 1, 1⟩
  else ⟨d.year + 1, 1, 1⟩

/-- One-day predecessor, part of the model of `datetime - timedelta(days=n)`. -/
def predDay (d : PyDate) : PyDate :=
  if 1 < d.day then ⟨d.year, d.month, d.day - 1⟩
  else if 1 < d.month then ⟨d.year, d.month - 1, pyDaysInMonth d.year (d.month - 1)⟩
  else ⟨d.year - 1, 12, 31⟩

def datePlusDays (d : PyDate) : Nat → PyDate
  | 0 => d
  | n + 1 => datePlusDays (succDay d) n

def dateMinusDays (d : PyDate) : Nat → PyDate
  | 0 => d
  | n + 1 => dateMinusDays (predDay d) n

/-- Embeds `storage._days_in_month`: `datetime(year, month, 28)` plus
`timedelta(days=4)` lands in the next month; replacing its day with 1
and subtracting one day is the last day of `(year, month)`, whose
day-of-month is returned. -/
def days_in_month (year month : Int) : Int :=
  let next_month := datePlusDays ⟨year, month, 28⟩ 4
  let last_day := dateMinusDays ⟨next_month.year, next_month.month, 1⟩ 1
  last_day.day

/-- The arithmetic trick of `_days_in_month` agrees with the calendar
month-length table on every valid month. -/
theorem days_in_month_eq (y m : Int) (h1 : 1 ≤ m) (h2 : m ≤ 12) :
    days_in_month y m = pyDaysInMonth y m := by
  interval_cases m <;>
    by_cases hL : isLeap y = true <;>
      simp [days_in_month, datePlusDays, dateMinusDays, succDay, predDay,
        pyDaysInMonth, hL]

theorem pyDaysInMonth_ge (y m : Int) : 28 ≤ pyDaysInMonth y m := by
  rw [pyDaysInMonth]
  split_ifs <;> omega

/-- The `while month <= 0: month += 12; year -= 1` loop of
`subtract_months`. -/
def normalizeYM (year month : Int) : Int × Int :=
  if month ≤ 0 then normalizeYM (year - 1) (month + 12)
  else (year, month)
termination_by (1 - month).toNat
decreasing_by
  simp_wf
  omega

theorem normalizeYM_spec (y m : Int) :
    (normalizeYM y m).1 * 12 + (normalizeYM y m).2 = y * 12 + m ∧
    1 ≤ (normalizeYM y m).2 ∧ (m ≤ 12 → (normalizeYM y m).2 ≤ 12) := by
  rw [normalizeYM]
  split
  · next h =>
    have ih := normalizeYM_spec (y - 1) (m + 12)
    exact ⟨ih.1.trans (by ring), ih.2.1, fun hm => ih.2.2 (by omega)⟩
  · next h =>
    exact ⟨by simp, by simp; omega, fun hm => by simpa using hm⟩
termination_by (1 - m).toNat
decreasing_by
  simp_wf
  omega

/-- Model of `datetime.replace(year=..., month=..., day=...)`: validates
the calendar ranges (`none` models the raised `ValueError`) and keeps
the remaining fields. -/
def pyReplaceYMD (y m d : Int) : Option PyDate :=
  if 1 ≤ y ∧ y ≤ 9999 ∧ 1 ≤ m ∧ m ≤ 12 ∧ 1 ≤ d ∧ d ≤ pyDaysInMonth y m then
    some ⟨y, m, d⟩
  else none

/-- Embeds `storage.subtract_months`.  After the month-normalisation
loop, `_days_in_month(year, month)` constructs `datetime(year, month,
28)` and adds four days, which raises `ValueError` outside the datetime
ranges and `OverflowError` past `datetime.max` (year 9999, month 12);
the guard models those raises.  The day is clamped with `min` and the
result built with `reference.replace`. -/
def subtract_months (reference : PyDate) (months : Int) : Option PyDate :=
  let ym := normalizeYM reference.year (reference.month - months)
  if 1 ≤ ym.1 ∧ ym.1 ≤ 9999 ∧ 1 ≤ ym.2 ∧ ym.2 ≤ 12 ∧ ¬(ym.1 = 9999 ∧ ym.2 = 12) then
    pyReplaceYMD ym.1 ym.2 (min reference.day (days_in_month ym.1 ym.2))
  else none

/-- C4: `subtract_months` performs calendar-month subtraction with day
clamping — the resulting year/month satisfy
`y' * 12 + m' = y * 12 + m - months` with `m'` a valid month, and the
day is clamped to the last valid day of the resulting month — not
fixed-30-day arithmetic. -/
theorem subtract_months_calendar (reference : PyDate) (months : Int)
    (hy1 : 1 ≤ reference.year) (hy2 : reference.year ≤ 9999)
    (hm1 : 1 ≤ reference.month) (hm2 : reference.month ≤ 12)
    (hd1 : 1 ≤ reference.day)
    (_hd2 : reference.day ≤ pyDaysInMonth reference.year reference.month)
    (hmo : 0 ≤ months)
    (hres : 1 ≤ (normalizeYM reference.year (reference.month - months)).1)
    (hcap : ¬((normalizeYM reference.year (reference.month - months)).1 = 9999 ∧
              (normalizeYM reference.year (reference.month - months)).2 = 12)) :
    subtract_months reference months = some
      ⟨(normalizeYM reference.year (reference.month - months)).1,
       (normalizeYM reference.year (reference.month - months)).2,
       min reference.day
         (pyDaysInMonth (normalizeYM reference.year (reference.month - months)).1
           (normalizeYM reference.year (reference.month - months)).2)⟩ ∧
    (normalizeYM reference.year (reference.month - months)).1 * 12 +
      (normalizeYM reference.year (reference.month - months)).2 =
      reference.year * 12 + reference.month - months ∧
    1 ≤ (normalizeYM reference.year (reference.month - months)).2 ∧
    (normalizeYM reference.year (reference.month - months)).2 ≤ 12 := by
  obtain ⟨hsum, hml, hmr⟩ := normalizeYM_spec reference.year (reference.month - months)
  have hsum' : (normalizeYM reference.year (reference.month - months)).1 * 12 +
      (normalizeYM reference.year (reference.month - months)).2 =
      reference.year * 12 + reference.month - months := by omega
  have hmr' : (normalizeYM reference.year (reference.month - months)).2 ≤ 12 :=
    hmr (by omega)
  have hyle : (normalizeYM reference.year (reference.month - months)).1 ≤ 9999 := by
    omega
  have hdim := pyDaysInMonth_ge
    (normalizeYM reference.year (reference.month - months)).1
    (normalizeYM reference.year (reference.month - months)).2
  refine ⟨?_, hsum', hml, hmr'⟩
  rw [subtract_months, if_pos ⟨hres, hyle, hml, hmr', hcap⟩,
    days_in_month_eq _ _ hml hmr', pyReplaceYMD,
    if_pos ⟨hres, hyle, hml, hmr', le_min hd1 (by omega), min_le_right _ _⟩]

/-- Witness for C4: March 31, 2024 minus one month clamps to
February 29, 2024 (a leap year). -/
theorem subtract_months_calendar_witness :
    subtract_months ⟨2024, 3, 31⟩ 1 = some ⟨2024, 2, 29⟩ := by
  have hn : normalizeYM 2024 2 = (2024, 2) := by
    rw [normalizeYM]
    norm_num
  have h := subtract_months_calendar ⟨2024, 3, 31⟩ 1
    (by decide) (by decide) (by decide) (by decide) (by decide) (by decide)
    (by decide) (by norm_num [hn]) (by norm_num [hn])
  rw [h.1]
  have h29 : pyDaysInMonth 2024 2 = 29 := by decide
  norm_num [hn, h29]

/-! ## Historical paging (`CandlestickService.fetch_history`) -/

/-- Python exception kinds raised by the embedded code. -/
inductive PyError where
  | typeError
  | valueError
  | indexError
  deriving DecidableEq

/-- Embeds `CandlestickService._parse_candle` applied to one raw row.
The source evaluates the constructor arguments — `values[0]` raises
`IndexError` on an empty row, `int(values[0])` raises `ValueError` on a
malformed timestamp, `values[8]` raises `IndexError` on a short row —
and then constructs `storage.CandleStick` WITHOUT its required `source`
field, which raises `TypeError`: no call can return a candle.  Only the
parsed timestamp is modelled (malformed price strings would raise
`ValueError` slightly earlier; either way every path raises), since
nothing downstream of the raise can read the other fields. -/
def parse_candle (row : List String) : Except PyError Int :=
  match row.head? with
  | none => .error .indexError
  | some ts_str =>
    match pyInt? ts_str.data with
    | none => .error .valueError
    | some _ts =>
      if row.length < 9 then .error .indexError
      else .error .typeError

/-- Embeds the `while True` loop of `CandlestickService.fetch_history`
with explicit fuel: `none` means the fuel ran out with the loop still
running, `some r` that the loop finished with outcome `r`.  The adapter
stands for `client.get_candlesticks` as a function of the `before`
cursor (the other arguments are fixed for one call); `before = str(cursor)
if cursor else None` follows Python truthiness, so both `None` and `0`
send no cursor.  Candles are carried as their timestamps, the only field
the loop control reads. -/
def fetch_history_loop (adapter : Option Int → List (List String))
    (start_ts end_ts : Int) :
    Nat → Option Int → List Int → Option (Except PyError (List Int))
  | 0, _, _ => none
  | fuel + 1, cursor, acc =>
    let before : Option Int := match cursor with
      | some c => if c = 0 then none else some c
      | none => none
    let data := adapter before
    if data.isEmpty then some (.ok acc)
    else
      match data.mapM parse_candle with
      | .error e => some (.error e)
      | .ok tss =>
        let filtered := tss.filter (fun ts => start_ts ≤ ts && ts ≤ end_ts)
        let acc' := acc ++ filtered
        match tss.min? with
        | none => some (.error .valueError)
        | some oldest =>
          if oldest ≤ start_ts then some (.ok acc')
          else fetch_history_loop adapter start_ts end_ts fuel (some oldest) acc'

/-- Embeds `CandlestickService.fetch_history`: run the paging loop from
an empty cursor and accumulator. -/
def fetch_history (adapter : Option Int → List (List String))
    (start_ts end_ts : Int) (fuel : Nat) : Option (Except PyError (List Int)) :=
  fetch_history_loop adapter start_ts end_ts fuel none []

/-- C2 (code-bug evidence): `CandlestickService.fetch_history` never
pages.  For any adapter whose first page is nonempty — here one
well-formed candle row with timestamp 60000 — `_parse_candle` raises
`TypeError` (it omits the `source` field that `storage.CandleStick`
requires), so the call fails on the first page at every fuel; only an
adapter returning an empty first page lets it return, with `[]`.  The
claimed paging with a strictly decreasing cursor never runs. -/
theorem fetch_history_crashes_on_first_nonempty_page :
    (∀ fuel : Nat,
      fetch_history (fun _ => [["60000", "1", "2", "3", "4", "5", "6", "7", "1"]])
        0 200000 (fuel + 1) = some (.error .typeError)) ∧
    (∀ fuel : Nat, fetch_history (fun _ => []) 0 200000 (fuel + 1) = some (.ok [])) := by
  constructor <;> (intro fuel; rfl)

/-! ## Gap backfill (`CandlestickService.backfill_missing`) -/

/-- A positional argument of a Python store-method call. -/
inductive PyValue where
  | str (s : String)
  | int (i : Int)

/-- The store method `fetch_existing_timestamps` as a Python callable:
the `DatabaseBackend` protocol and `SqliteCandleStore` bind exactly five
positional parameters `(source, inst_id, bar, start_ts, end_ts)`; a
call whose argument list does not fill them raises `TypeError`.  The
`store` function gives the timestamp answer of a correctly bound call. -/
def fetch_existing_timestamps_method
    (store : String → String → String → Int → Int → List Int) :
    List PyValue → Except PyError (List Int)
  | [.str source, .str inst_id, .str bar, .int start_ts, .int end_ts] =>
    .ok (store source inst_id bar start_ts end_ts)
  | _ => .error .typeError

/-- The `for ts in missing: self.fetch_history(inst_id, ts, ts)` loop of
`backfill_missing`: one targeted single-point `fetch_history` per
missing timestamp; the first raise propagates, fuel exhaustion is
`none`. -/
def backfill_fetch_all (adapter : Option Int → List (List String)) (fuel : Nat) :
    List Int → Option (Except PyError Unit)
  | [] => some (.ok ())
  | ts :: rest =>
    match fetch_history adapter ts ts fuel with
    | none => none
    | some (.error e) => some (.error e)
    | some (.ok _) => backfill_fetch_all adapter fuel rest

/-- Embeds `CandlestickService.backfill_missing`: compute the expected
grid, call `self.store.fetch_existing_timestamps(inst_id, self.bar,
start_ts, end_ts)` — four positional arguments against the
five-parameter store interface — then diff the grid against the answer
and run one targeted `fetch_history` per missing timestamp before
returning the missing list.  As in `fetch_history`, `none` is fuel
exhaustion and `some r` the Python outcome. -/
def backfill_missing (adapter : Option Int → List (List String))
    (store : String → String → String → Int → Int → List Int)
    (inst_id : String) (bar : List Char) (start_ts end_ts : Int) (fuel : Nat) :
    Option (Except PyError (List Int)) :=
  match expected_timestamps bar start_ts end_ts with
  | none => some (.error .valueError)
  | some expected =>
    match fetch_existing_timestamps_method store
        [.str inst_id, .str (String.mk bar), .int start_ts, .int end_ts] with
    | .error e => some (.error e)
    | .ok existing =>
      let missing := expected.filter (fun ts => !existing.contains ts)
      match backfill_fetch_all adapter fuel missing with
      | none => none
      | some (.error e) => some (.error e)
      | some (.ok _) => some (.ok missing)

/-- C1 (code-bug evidence): in the claim's scenario (bar "1m", range
`[0, 180000]`), `backfill_missing` raises `TypeError` for every store
and every adapter before any diffing happens, because the source passes
four positional arguments to the five-parameter
`fetch_existing_timestamps` of the store interface (and, per the
`fetch_history` finding, each per-point backfill call would also raise
on any nonempty page).  The grid itself is computed as the claim says —
the aligned grid is 0, 60000, 120000, 180000, and diffing it against
stored timestamps {0, 120000} identifies exactly {60000, 180000} — but
the method can never reach or return that diff. -/
theorem backfill_missing_raises_before_diff :
    (∀ (store : String → String → String → Int → Int → List Int)
      (adapter : Option Int → List (List String)) (fuel : Nat),
      backfill_missing adapter store "BTC-USDT" ['1', 'm'] 0 180000 fuel =
        some (.error .typeError)) ∧
    bar_to_milliseconds ['1', 'm'] = some 60000 ∧
    expected_timestamps ['1', 'm'] 0 180000 = some [0, 60000, 120000, 180000] ∧
    [0, 60000, 120000, 180000].filter
      (fun ts => !([0, 120000] : List Int).contains ts) = [60000, 180000] := by
  exact ⟨fun store adapter fuel => rfl, rfl, rfl, rfl⟩

/-! ## RateLimiter (`candles.RateLimiter`)

Token amounts and rates are Python floats in the source; the embedding
uses `ℚ`, which carries the ordered-field facts (`min` bounds, adding
and subtracting) that the invariants rest on. -/

structure RateLimiter where
  rate : ℚ
  capacity : ℚ
  tokens : ℚ
  deriving DecidableEq

/-- Embeds `RateLimiter.__init__` (`_last_refill` is represented by
handing each loop iteration the elapsed wall-clock time instead of
storing an absolute instant). -/
def RateLimiter.init (rate_per_second : ℚ) : RateLimiter :=
  { rate := max rate_per_second 0, capacity := max rate_per_second 1,
    tokens := max rate_per_second 1 }

/-- One iteration of the `while True` body of `acquire`: lazy refill
from the elapsed time capped at the capacity, then grant (consume one
token) when at least one token is available.  Returns the new state and
whether a token was granted. -/
def refillGrant (s : RateLimiter) (elapsed : ℚ) : RateLimiter × Bool :=
  let t := min s.capacity (s.tokens + elapsed * s.rate)
  if 1 ≤ t then ({ s with tokens := t - 1 }, true)
  else ({ s with tokens := t }, false)

/-- Embeds the loop of `RateLimiter.acquire` over a trace of elapsed
times between successive iterations, ending when a token is granted or
the trace is exhausted (still blocked). -/
def acquireLoop (s : RateLimiter) : List ℚ → RateLimiter × Bool
  | [] => (s, false)
  | e :: rest =>
    match refillGrant s e with
    | (s', true) => (s', true)
    | (s', false) => acquireLoop s' rest

/-- Embeds `RateLimiter.acquire`: an immediate return without touching
the bucket on a non-positive configured rate, otherwise the
refill/grant loop. -/
def acquire (s : RateLimiter) (trace : List ℚ) : RateLimiter × Bool :=
  if s.rate ≤ 0 then (s, false) else acquireLoop s trace

/-- Tokens granted by `n` consecutive acquire iterations with no elapsed
wall-clock time (zero refill) — the grants outstanding between refills. -/
def grantsNoRefill (s : RateLimiter) : Nat → Nat
  | 0 => 0
  | n + 1 =>
    grantsNoRefill (refillGrant s 0).1 n + (if (refillGrant s 0).2 then 1 else 0)

theorem grantsNoRefill_le (n : Nat) (s : RateLimiter)
    (h0 : 0 ≤ s.tokens) (hc : 1 ≤ s.capacity) :
    (grantsNoRefill s n : ℚ) ≤ s.tokens := by
  induction n generalizing s with
  | zero =>
    rw [grantsNoRefill]
    simpa using h0
  | succ n ih =>
    rw [grantsNoRefill]
    have ht : min s.capacity s.tokens ≤ s.tokens := min_le_right _ _
    by_cases h1 : (1 : ℚ) ≤ min s.capacity s.tokens
    · have hrg : refillGrant s 0 =
          ({ s with tokens := min s.capacity s.tokens - 1 }, true) := by
        simp only [refillGrant, zero_mul, add_zero]
        rw [if_pos h1]
      rw [hrg]
      have hne := ih { s with tokens := min s.capacity s.tokens - 1 }
        (by dsimp only; linarith) (by dsimp only; exact hc)
      dsimp only at hne ⊢
      rw [if_pos rfl]
      push_cast
      linarith
    · have hrg : refillGrant s 0 =
          ({ s with tokens := min s.capacity s.tokens }, false) := by
        simp only [refillGrant, zero_mul, add_zero]
        rw [if_neg h1]
      rw [hrg]
      have hne := ih { s with tokens := min s.capacity s.tokens }
        (by dsimp only; exact le_min (by linarith) h0) (by dsimp only; exact hc)
      dsimp only at hne ⊢
      rw [if_neg (by decide)]
      push_cast
      linarith

/-- C8: the bucket capacity is `max(configured rate, 1)`; the token
count is at most the capacity at initialization and after every
refill/grant step (which leaves the capacity unchanged), so at most
`capacity` tokens are granted without wall-clock refill; and a
non-positive configured rate makes `acquire` return immediately without
granting a token or mutating the bucket. -/
theorem rateLimiter_capacity_invariant (r e : ℚ) (s : RateLimiter)
    (trace : List ℚ) (n : Nat) :
    (RateLimiter.init r).capacity = max r 1 ∧
    (RateLimiter.init r).tokens ≤ (RateLimiter.init r).capacity ∧
    (refillGrant s e).1.capacity = s.capacity ∧
    (refillGrant s e).1.tokens ≤ s.capacity ∧
    (s.rate ≤ 0 → acquire s trace = (s, false)) ∧
    ((grantsNoRefill (RateLimiter.init r) n : ℚ) ≤ (RateLimiter.init r).capacity) := by
  refine ⟨rfl, le_refl _, ?_, ?_, ?_, ?_⟩
  · rw [refillGrant]
    split_ifs <;> rfl
  · rw [refillGrant]
    split_ifs with h1
    · show min s.capacity (s.tokens + e * s.rate) - 1 ≤ s.capacity
      have := min_le_left s.capacity (s.tokens + e * s.rate)
      linarith
    · exact min_le_left _ _
  · intro h
    rw [acquire, if_pos h]
  · have h1 : (1 : ℚ) ≤ (RateLimiter.init r).capacity := le_max_right _ _
    have h0 : (0 : ℚ) ≤ (RateLimiter.init r).tokens := by
      have : (1 : ℚ) ≤ max r 1 := le_max_right _ _
      show (0 : ℚ) ≤ max r 1
      linarith
    exact (grantsNoRefill_le n _ h0 h1).trans (le_refl _)

/-- Witness for C8 at rate 2 (five zero-elapsed iterations) and at the
non-positive rate 0. -/
theorem rateLimiter_capacity_invariant_witness :
    (RateLimiter.init 2).capacity = max 2 1 ∧
    acquire (RateLimiter.init 0) [0, 0] = (RateLimiter.init 0, false) ∧
    ((grantsNoRefill (RateLimiter.init 2) 5 : ℚ) ≤ (RateLimiter.init 2).capacity) :=
  ⟨(rateLimiter_capacity_invariant 2 0 (RateLimiter.init 0) [0, 0] 5).1,
   (rateLimiter_capacity_invariant 2 0 (RateLimiter.init 0) [0, 0] 5).2.2.2.2.1
     (by norm_num [RateLimiter.init]),
   (rateLimiter_capacity_invariant 2 0 (RateLimiter.init 0) [0, 0] 5).2.2.2.2.2⟩

end TAuto
